import Mathlib

/-!
Shallow embedding of the clcache cache engine (src/clcache.py) and proofs
about its specification claims.

Modelling conventions:
* Python strings are Lean `String`s; Python byte strings are also modelled as
  `String` (the storage codec is fixed, and encode/decode round-trips).
* The MD5 digest (`hashlib.md5(...).hexdigest()`) is an external primitive;
  every definition that hashes takes an explicit digest function
  `md5 : String → String` as a parameter, mirroring the incremental
  `update` calls by concatenating the hashed chunks.
* The file system is a partial map `String → Option String` from paths to
  contents; `none` models an absent file.
* Python `float` sizes (`st_size`, `0.9 * maximumSize`) are idealised as
  exact rationals `ℚ`.
* Exceptions are modelled with `Except`/`Option`: a raised, uncaught Python
  exception is an `.error` value, absence is `none`.
-/

namespace Clcache

/-! ### Python string ordering

Python compares strings lexicographically by code point; `sorted` uses this
order.  Lean core's `String` order does not reduce in the kernel, so we give
an executable code-point comparison of our own.  -/

def charListLe : List Char → List Char → Bool
  | [], _ => true
  | _ :: _, [] => false
  | a :: as, b :: bs => if a = b then charListLe as bs else decide (a.toNat < b.toNat)

/-- Python's `<=` on strings: lexicographic comparison by code point. -/
def pyStrLe (a b : String) : Bool := charListLe a.data b.data

theorem char_eq_of_toNat_eq {a b : Char} (h : a.toNat = b.toNat) : a = b :=
  Char.eq_of_val_eq (UInt32.ext h)

theorem charListLe_total (a b : List Char) : charListLe a b = true ∨ charListLe b a = true := by
  induction a generalizing b with
  | nil => left; rfl
  | cons x xs ih =>
    cases b with
    | nil => right; rfl
    | cons y ys =>
      by_cases hxy : x = y
      · subst hxy
        simp only [charListLe, if_pos rfl]
        exact ih ys
      · have hne : x.toNat ≠ y.toNat := fun h => hxy (char_eq_of_toNat_eq h)
        simp only [charListLe, if_neg hxy, if_neg (Ne.symm hxy), decide_eq_true_eq]
        omega

theorem charListLe_refl (a : List Char) : charListLe a a = true := by
  induction a with
  | nil => rfl
  | cons x xs ih => simp only [charListLe, if_pos rfl]; exact ih

theorem charListLe_antisymm {a b : List Char} (h₁ : charListLe a b = true)
    (h₂ : charListLe b a = true) : a = b := by
  induction a generalizing b with
  | nil =>
    cases b with
    | nil => rfl
    | cons y ys => simp [charListLe] at h₂
  | cons x xs ih =>
    cases b with
    | nil => simp [charListLe] at h₁
    | cons y ys =>
      by_cases hxy : x = y
      · subst hxy
        simp only [charListLe, if_pos rfl] at h₁ h₂
        exact congrArg (x :: ·) (ih h₁ h₂)
      · simp only [charListLe, if_neg hxy, if_neg (Ne.symm hxy), decide_eq_true_eq] at h₁ h₂
        omega

theorem charListLe_trans {a b c : List Char} (h₁ : charListLe a b = true)
    (h₂ : charListLe b c = true) : charListLe a c = true := by
  induction a generalizing b c with
  | nil => rfl
  | cons x xs ih =>
    cases b with
    | nil => simp [charListLe] at h₁
    | cons y ys =>
      cases c with
      | nil => simp [charListLe] at h₂
      | cons z zs =>
        by_cases hxy : x = y <;> by_cases hyz : y = z
        · subst hxy; subst hyz
          simp only [charListLe, if_pos rfl] at h₁ h₂ ⊢
          exact ih h₁ h₂
        · subst hxy
          simpa [charListLe, hyz] using h₂
        · subst hyz
          simpa [charListLe, hxy] using h₁
        · simp only [charListLe, if_neg hxy, if_neg hyz, decide_eq_true_eq] at h₁ h₂
          by_cases hxz : x = z
          · subst hxz; omega
          · simp only [charListLe, if_neg hxz, decide_eq_true_eq]
            omega

/-- The Python string order as a Lean relation, for use with `insertionSort`. -/
def strLeR (a b : String) : Prop := pyStrLe a b = true

instance : DecidableRel strLeR := fun a b => instDecidableEqBool (pyStrLe a b) true

instance : IsTotal String strLeR := ⟨fun a b => charListLe_total a.data b.data⟩

instance : IsTrans String strLeR := ⟨fun _ _ _ h₁ h₂ => charListLe_trans h₁ h₂⟩

instance : IsAntisymm String strLeR := ⟨fun _ _ h₁ h₂ => String.ext (charListLe_antisymm h₁ h₂)⟩

instance : IsRefl String strLeR := ⟨fun a => charListLe_refl a.data⟩

/-- Python `sorted(set(l))`: the distinct elements of `l` in ascending
code-point order. -/
def pySortedSet (l : List String) : List String := List.insertionSort strLeR l.dedup

theorem pySortedSet_eq_of_mem_iff {l₁ l₂ : List String} (h : ∀ a, a ∈ l₁ ↔ a ∈ l₂) :
    pySortedSet l₁ = pySortedSet l₂ := by
  have p₁ := List.perm_insertionSort strLeR l₁.dedup
  have p₂ := List.perm_insertionSort strLeR l₂.dedup
  unfold pySortedSet
  refine List.eq_of_perm_of_sorted ?_ (List.sorted_insertionSort _ _) (List.sorted_insertionSort _ _)
  rw [List.perm_ext_iff_of_nodup (p₁.nodup_iff.mpr l₁.nodup_dedup) (p₂.nodup_iff.mpr l₂.nodup_dedup)]
  intro a
  rw [p₁.mem_iff, p₂.mem_iff, List.mem_dedup, List.mem_dedup]
  exact h a

/-! ### Python string helpers

`str.startswith` (also with a start offset of 1) and slicing reduce in the
kernel when phrased over the underlying character lists. -/

/-- Python `s.startswith(p)`. -/
def pyStartsWith (s p : String) : Bool := p.data.isPrefixOf s.data

/-- Python `s.startswith(p, 1)`: does `p` occur at index 1 of `s`? -/
def pyStartsWithAt1 (s p : String) : Bool := p.data.isPrefixOf s.data.tail

/-- Python `s[n:]` (drop the first `n` characters). -/
def pyDrop (s : String) (n : Nat) : String := String.mk (s.data.drop n)

/-! ### PersistentJSONDict (statistics dictionary)

`Statistics._stats` is a `PersistentJSONDict`, a JSON-backed Python `dict`
from string keys to integers.  A Python dict keeps insertion order:
`d[k] = v` overwrites in place when `k` is present and appends otherwise. -/

/-- The in-memory dictionary of a `PersistentJSONDict` with integer values. -/
abbrev StatsDict := List (String × Int)

/-- Python `d[k] = v` on an insertion-ordered dict. -/
def dictSet : StatsDict → String → Int → StatsDict
  | [], k, v => [(k, v)]
  | (k', v') :: rest, k, v =>
      if k' = k then (k', v) :: rest else (k', v') :: dictSet rest k v

/-- Python `d[k]` (`none` models a `KeyError`). -/
def dictGet? : StatsDict → String → Option Int
  | [], _ => none
  | (k', v') :: rest, k => if k' = k then some v' else dictGet? rest k

theorem dictGet_dictSet_self (d : StatsDict) (k : String) (v : Int) :
    dictGet? (dictSet d k v) k = some v := by
  induction d with
  | nil => simp [dictSet, dictGet?]
  | cons p rest ih =>
    obtain ⟨k', v'⟩ := p
    by_cases h : k' = k
    · simp [dictSet, dictGet?, h]
    · simp [dictSet, dictGet?, h, ih]

theorem dictGet_dictSet_ne (d : StatsDict) {k k' : String} (v : Int) (h : k' ≠ k) :
    dictGet? (dictSet d k v) k' = dictGet? d k' := by
  induction d with
  | nil =>
    simp only [dictSet, dictGet?]
    rw [if_neg (Ne.symm h)]
  | cons p rest ih =>
    obtain ⟨k₀, v₀⟩ := p
    simp only [dictSet]
    by_cases h₀ : k₀ = k
    · rw [if_pos h₀]
      have hk₀' : k₀ ≠ k' := by rw [h₀]; exact Ne.symm h
      simp only [dictGet?, if_neg hk₀']
    · rw [if_neg h₀]
      simp only [dictGet?]
      by_cases h₁ : k₀ = k'
      · rw [if_pos h₁, if_pos h₁]
      · rw [if_neg h₁, if_neg h₁, ih]

/-! ### Statistics -/

/-- Statistics key names (`Statistics.CALLS_WITH_INVALID_ARGUMENT` …). -/
def CALLS_WITH_INVALID_ARGUMENT : String := "CallsWithInvalidArgument"

def CALLS_WITHOUT_SOURCE_FILE : String := "CallsWithoutSourceFile"

def CALLS_WITH_MULTIPLE_SOURCE_FILES : String := "CallsWithMultipleSourceFiles"

def CALLS_WITH_PCH : String := "CallsWithPch"

def CALLS_FOR_LINKING : String := "CallsForLinking"

def CALLS_FOR_EXTERNAL_DEBUG_INFO : String := "CallsForExternalDebugInfo"

def CALLS_FOR_PREPROCESSING : String := "CallsForPreprocessing"

def CACHE_HITS : String := "CacheHits"

def CACHE_MISSES : String := "CacheMisses"

def EVICTED_MISSES : String := "EvictedMisses"

def HEADER_CHANGED_MISSES : String := "HeaderChangedMisses"

def SOURCE_CHANGED_MISSES : String := "SourceChangedMisses"

def CACHE_ENTRIES : String := "CacheEntries"

def CACHE_SIZE : String := "CacheSize"

/-- `Statistics.RESETTABLE_KEYS`, as a list (the Python set's iteration order
is unspecified; distinct keys make the fold order-independent). -/
def RESETTABLE_KEYS : List String :=
  [CALLS_WITH_INVALID_ARGUMENT, CALLS_WITHOUT_SOURCE_FILE,
   CALLS_WITH_MULTIPLE_SOURCE_FILES, CALLS_WITH_PCH, CALLS_FOR_LINKING,
   CALLS_FOR_EXTERNAL_DEBUG_INFO, CALLS_FOR_PREPROCESSING, CACHE_HITS,
   CACHE_MISSES, EVICTED_MISSES, HEADER_CHANGED_MISSES, SOURCE_CHANGED_MISSES]

/-- `Statistics.NON_RESETTABLE_KEYS`. -/
def NON_RESETTABLE_KEYS : List String := [CACHE_ENTRIES, CACHE_SIZE]

/-- `Statistics.resetCounters`: `for k in RESETTABLE_KEYS: self._stats[k] = 0`. -/
def resetCounters (d : StatsDict) : StatsDict :=
  RESETTABLE_KEYS.foldl (fun d k => dictSet d k 0) d

theorem foldl_dictSet_zero_mem (ks : List String) (k : String) :
    ∀ d : StatsDict, (k ∈ ks ∨ dictGet? d k = some 0) →
      dictGet? (ks.foldl (fun d k => dictSet d k 0) d) k = some 0 := by
  induction ks with
  | nil =>
    intro d h
    rcases h with h | h
    · cases h
    · simpa using h
  | cons k₀ rest ih =>
    intro d h
    simp only [List.foldl_cons]
    by_cases hk : k = k₀
    · exact ih (dictSet d k₀ 0) (Or.inr (hk ▸ dictGet_dictSet_self d k₀ 0))
    · rcases h with h | h
      · rcases List.mem_cons.mp h with h' | h'
        · exact absurd h' hk
        · exact ih _ (Or.inl h')
      · refine ih _ (Or.inr ?_)
        rw [dictGet_dictSet_ne d 0 hk]
        exact h

theorem foldl_dictSet_zero_not_mem (ks : List String) (k : String) (hk : k ∉ ks) :
    ∀ d : StatsDict, dictGet? (ks.foldl (fun d k => dictSet d k 0) d) k = dictGet? d k := by
  induction ks with
  | nil => intro d; rfl
  | cons k₀ rest ih =>
    intro d
    simp only [List.foldl_cons]
    have hk₀ : k ≠ k₀ := fun h => hk (h ▸ List.mem_cons_self k₀ rest)
    have hrest : k ∉ rest := fun h => hk (List.mem_cons_of_mem _ h)
    rw [ih hrest, dictGet_dictSet_ne d 0 hk₀]

/-! ### Manifests -/

/-- `ManifestEntry`: an entry in a manifest file. -/
structure ManifestEntry where
  includeFiles : List String
  includesContentHash : String
  objectHash : String
deriving DecidableEq

/-- A `Manifest` wraps the ordered entry list (newest first). -/
structure Manifest where
  entries : List ManifestEntry
deriving DecidableEq

/-- `Manifest.addEntry`: insert at position 0 (no bound is enforced). -/
def Manifest.addEntry (m : Manifest) (e : ManifestEntry) : Manifest :=
  ⟨e :: m.entries⟩

/-- `Manifest.touchEntry`: `self._entries.insert(0, self._entries.pop(entryIndex))`;
`none` models the `IndexError` on an out-of-range index. -/
def Manifest.touchEntry (m : Manifest) (entryIndex : Nat) : Option Manifest :=
  match m.entries.get? entryIndex with
  | none => none
  | some e => some ⟨e :: m.entries.eraseIdx entryIndex⟩

theorem addEntry_length (m : Manifest) (e : ManifestEntry) :
    (m.addEntry e).entries.length = m.entries.length + 1 := rfl

/-- A manifest store: manifest hash → stored manifest (one section suffices
for reachability arguments; sections partition the hashes). -/
abbrev ManifestStore := String → Option Manifest

/-- `createOrUpdateManifest`: fetch-or-create, `addEntry`, `setManifest`.
Returns the new manifest and the updated store. -/
def createOrUpdateManifest (store : ManifestStore) (manifestHash : String)
    (entry : ManifestEntry) : Manifest × ManifestStore :=
  let manifest := (store manifestHash).getD ⟨[]⟩
  let manifest := manifest.addEntry entry
  (manifest, fun h => if h = manifestHash then some manifest else store h)

/-! ### Sequencing helpers

Python evaluates a list comprehension left to right and lets the first
exception escape; these helpers model that for `Option` and `Except`. -/

/-- Map a partial function over a list; `none` as soon as one element fails. -/
def optionMapM (f : α → Option β) : List α → Option (List β)
  | [] => some []
  | x :: xs =>
      match f x with
      | none => none
      | some y =>
          match optionMapM f xs with
          | none => none
          | some ys => some (y :: ys)

/-- Map a fallible function over a list; the first error escapes. -/
def exceptMapM (f : α → Except ε β) : List α → Except ε (List β)
  | [] => .ok []
  | x :: xs =>
      match f x with
      | .error e => .error e
      | .ok y =>
          match exceptMapM f xs with
          | .error e => .error e
          | .ok ys => .ok (y :: ys)

/-! ### Hashing and path utilities -/

/-- A partial map from paths to file contents; `none` is an absent file. -/
abbrev FileSys := String → Option String

/-- `getFileHash(filePath)`: `none` models the `FileNotFoundError` raised
when the file is absent. -/
def getFileHash (md5 : String → String) (fs : FileSys) (filePath : String) : Option String :=
  (fs filePath).map md5

/-- `getFileHash(filePath, additionalData)`: the extra string is fed to the
hasher after the file contents. -/
def getFileHashExtra (md5 : String → String) (fs : FileSys) (filePath : String)
    (additionalData : String) : Option String :=
  (fs filePath).map (fun contents => md5 (contents ++ additionalData))

/-- `getStringHash(dataString)`. -/
def getStringHash (md5 : String → String) (dataString : String) : String := md5 dataString

/-- `ManifestRepository.getIncludesContentHashForHashes`: join with `","` and
hash; no sorting and no deduplication happen here. -/
def getIncludesContentHashForHashes (md5 : String → String) (listOfHashes : List String) : String :=
  md5 (String.intercalate "," listOfHashes)

/-- `ManifestRepository.getIncludesContentHashForFiles`: hash every file in
the given order; `none` models the `IncludeNotFoundException` raised when
some file is missing. -/
def getIncludesContentHashForFiles (md5 : String → String) (fs : FileSys)
    (includes : List String) : Option String :=
  (optionMapM (getFileHash md5 fs) includes).map (getIncludesContentHashForHashes md5)

/-- `collapseBasedirToPlaceholder`: with a configured base dir that prefixes
the path, replace that prefix by `"?"` (`path.replace(baseDir, '?', 1)` under
a `startswith` guard replaces exactly the prefix). -/
def collapseBasedirToPlaceholder (baseDir : Option String) (path : String) : String :=
  match baseDir with
  | none => path
  | some b => if pyStartsWith path b then "?" ++ pyDrop path b.data.length else path

/-- `expandBasedirPlaceholder`: `.error ()` models the `LogicException` on a
folded path without a configured base dir. -/
def expandBasedirPlaceholder (baseDir : Option String) (path : String) : Except Unit String :=
  if pyStartsWith path "?" then
    match baseDir with
    | none => .error ()
    | some b => .ok (b ++ pyDrop path 1)
  else .ok path

/-- `CompilerArtifactsRepository.computeKeyDirect`. -/
def computeKeyDirect (md5 : String → String) (manifestHash includesContentHash : String) : String :=
  getStringHash md5 (manifestHash ++ includesContentHash)

/-- `createManifestEntry`: sort and deduplicate the include paths, hash each
file, fold the base dir, and derive the artifact key.  `none` models the
uncaught `FileNotFoundError` when an include vanished. -/
def createManifestEntry (md5 : String → String) (fs : FileSys) (baseDir : Option String)
    (manifestHash : String) (includePaths : List String) : Option ManifestEntry :=
  let sortedIncludePaths := pySortedSet includePaths
  (optionMapM (getFileHash md5 fs) sortedIncludePaths).map (fun includeHashes =>
    let safeIncludes := sortedIncludePaths.map (collapseBasedirToPlaceholder baseDir)
    let includesContentHash := getIncludesContentHashForHashes md5 includeHashes
    ⟨safeIncludes, includesContentHash, computeKeyDirect md5 manifestHash includesContentHash⟩)

/-! ### Manifest persistence (JSON)

`setManifest` serialises the manifest with `json.dump({'entries': ...})`;
`getManifest` parses with `json.load` and catches only `IOError`. -/

/-- A JSON value, as produced/consumed by `json.dump`/`json.load`. -/
inductive JVal where
  | str (s : String)
  | num (n : Int)
  | arr (xs : List JVal)
  | obj (fields : List (String × JVal))

/-- The JSON object `setManifest` writes for one entry (`sort_keys=True`
orders the three keys alphabetically). -/
def manifestEntryJson (e : ManifestEntry) : JVal :=
  .obj [("includeFiles", .arr (e.includeFiles.map .str)),
        ("includesContentHash", .str e.includesContentHash),
        ("objectHash", .str e.objectHash)]

/-- The top-level JSON document `setManifest` writes: `{'entries': entries}`. -/
def manifestJsonDoc (m : Manifest) : JVal :=
  .obj [("entries", .arr (m.entries.map manifestEntryJson))]

/-- Top-level keys of a JSON document. -/
def jsonTopKeys : JVal → List String
  | .obj fields => fields.map Prod.fst
  | _ => []

/-- The content of a stored manifest file: either text that `json.load`
parses into a JSON value, or text that makes it raise `JSONDecodeError`. -/
inductive StoredFile where
  | jsonContent (v : JVal)
  | notJson

/-- A Python exception escaping `getManifest` (only `IOError` is caught). -/
inductive ReadErr where
  | jsonDecodeError
  | keyError
  | typeError
deriving DecidableEq

/-- Lookup in a JSON object's field list (first match, like `json.load`
dictionaries that keep one value per key). -/
def jsonField : List (String × JVal) → String → Option JVal
  | [], _ => none
  | (k, v) :: rest, key => if k = key then some v else jsonField rest key

/-- Parse one entry object: `ManifestEntry(e['includeFiles'],
e['includesContentHash'], e['objectHash'])`.  A missing key raises
`KeyError`; shapes our typed model cannot hold raise `typeError`. -/
def manifestEntryOfJson : JVal → Except ReadErr ManifestEntry
  | .obj fields => do
      let inc ← match jsonField fields "includeFiles" with
        | some (.arr xs) =>
            exceptMapM (fun v => match v with | .str s => Except.ok s | _ => Except.error .typeError) xs
        | some _ => .error .typeError
        | none => .error .keyError
      let ich ← match jsonField fields "includesContentHash" with
        | some (.str s) => Except.ok s
        | some _ => .error .typeError
        | none => .error .keyError
      let oh ← match jsonField fields "objectHash" with
        | some (.str s) => Except.ok s
        | some _ => .error .typeError
        | none => .error .keyError
      pure ⟨inc, ich, oh⟩
  | _ => .error .typeError

/-- Parse the whole manifest document: `doc['entries']` raises `KeyError`
when missing and `TypeError` when `doc` is not an object. -/
def manifestOfJson : JVal → Except ReadErr Manifest
  | .obj fields =>
      match jsonField fields "entries" with
      | some (.arr xs) => do
          let es ← exceptMapM manifestEntryOfJson xs
          pure ⟨es⟩
      | some _ => .error .typeError
      | none => .error .keyError
  | _ => .error .typeError

/-- A store of manifest files by path. -/
abbrev ManifestFileStore := String → Option StoredFile

/-- Does a path end in a separator or a drive colon? -/
def lastIsSepOrColon (a : String) : Bool :=
  match a.data.getLast? with
  | some c => c = '\\' || c = '/' || c = ':'
  | none => false

/-- Windows `os.path.join` for a relative second component. -/
def joinPath (a b : String) : String :=
  if a = "" then b
  else if pyStartsWith b "\\" || pyStartsWith b "/" then b
  else if lastIsSepOrColon a then a ++ b
  else a ++ "\\" ++ b

/-- `ManifestSection.manifestPath`: `os.path.join(sectionDir, hash + ".json")`. -/
def manifestPath (manifestSectionDir manifestHash : String) : String :=
  joinPath manifestSectionDir (manifestHash ++ ".json")

/-- `ManifestSection.getManifest`: absent file ⇒ `none`; only `IOError` is
caught, so a file that is not valid JSON raises `JSONDecodeError` and a
document without the expected keys raises `KeyError`/`TypeError`. -/
def getManifest (store : ManifestFileStore) (manifestSectionDir manifestHash : String) :
    Except ReadErr (Option Manifest) :=
  match store (manifestPath manifestSectionDir manifestHash) with
  | none => .ok none
  | some .notJson => .error .jsonDecodeError
  | some (.jsonContent v) => (manifestOfJson v).map some

/-- `ManifestSection.setManifest`: store the serialised document at the
manifest path (the write itself is modelled as an op trace separately). -/
def setManifest (store : ManifestFileStore) (manifestSectionDir manifestHash : String)
    (m : Manifest) : ManifestFileStore :=
  fun p => if p = manifestPath manifestSectionDir manifestHash
           then some (.jsonContent (manifestJsonDoc m)) else store p

/-! ### Compiler artifacts section -/

/-- `CompilerArtifacts` namedtuple. -/
structure CompilerArtifacts where
  objectFilePath : Option String
  stdout : String
  stderr : String

theorem string_append_right_inj (a : String) {b c : String} (h : a ++ b = a ++ c) : b = c := by
  have hd := congrArg String.data h
  simp at hd
  exact String.ext hd

theorem joinPath_inj_of_rel (d : String) {b₁ b₂ : String}
    (r₁ : (pyStartsWith b₁ "\\" || pyStartsWith b₁ "/") = false)
    (r₂ : (pyStartsWith b₂ "\\" || pyStartsWith b₂ "/") = false)
    (h : joinPath d b₁ = joinPath d b₂) : b₁ = b₂ := by
  unfold joinPath at h
  by_cases hd : d = ""
  · rw [if_pos hd, if_pos hd] at h
    exact h
  · rw [if_neg hd, if_neg hd, r₁, r₂] at h
    rw [if_neg (show ¬(false = true) by simp)] at h
    rw [if_neg (show ¬(false = true) by simp)] at h
    by_cases hl : lastIsSepOrColon d = true
    · rw [if_pos hl, if_pos hl] at h
      exact string_append_right_inj d h
    · rw [if_neg hl, if_neg hl] at h
      exact string_append_right_inj (d ++ "\\") h

/-- `CompilerArtifactsSection.cacheEntryDir`. -/
def cacheEntryDir (compilerArtifactsSectionDir key : String) : String :=
  joinPath compilerArtifactsSectionDir key

/-- `CompilerArtifactsSection.cachedObjectName`. -/
def cachedObjectName (sectionDir key : String) : String :=
  joinPath (cacheEntryDir sectionDir key) "object"

/-- Path of a console-output file inside a cache entry directory. -/
def consoleOutputPath (sectionDir key fileName : String) : String :=
  joinPath (cacheEntryDir sectionDir key) fileName

/-- Write one file (functional update of the file system). -/
def fsWrite (fs : FileSys) (p content : String) : FileSys :=
  fun q => if q = p then some content else fs q

/-- Copy a file's contents to a new path (used for `copyOrLink`'s effect on
visible state; a missing source raises in Python and is outside the claims). -/
def copyFileTo (fs : FileSys) (src dst : String) : FileSys :=
  fun q => if q = dst then fs src else fs q

/-- `CompilerArtifactsSection._getCachedCompilerConsoleOutput`: read and
decode; any `IOError` (in particular a missing file) yields `''`. -/
def getCachedCompilerConsoleOutput (fs : FileSys) (sectionDir key fileName : String) : String :=
  (fs (consoleOutputPath sectionDir key fileName)).getD ""

/-- `CompilerArtifactsSection._setCachedCompilerConsoleOutput`: encode and
write in place. -/
def setCachedCompilerConsoleOutput (fs : FileSys) (sectionDir key fileName output : String) :
    FileSys :=
  fsWrite fs (consoleOutputPath sectionDir key fileName) output

/-- `CompilerArtifactsSection.setEntry`: install the object (when given),
always write `output.txt`, write `stderr.txt` only when non-empty. -/
def setEntry (fs : FileSys) (sectionDir key : String) (artifacts : CompilerArtifacts) : FileSys :=
  let fs₁ := match artifacts.objectFilePath with
    | some src => copyFileTo fs src (cachedObjectName sectionDir key)
    | none => fs
  let fs₂ := setCachedCompilerConsoleOutput fs₁ sectionDir key "output.txt" artifacts.stdout
  if artifacts.stderr ≠ "" then
    setCachedCompilerConsoleOutput fs₂ sectionDir key "stderr.txt" artifacts.stderr
  else fs₂

/-- `CompilerArtifactsSection.getEntry`: the cached object path plus the two
console outputs (missing file ⇒ `''`). -/
def getEntry (fs : FileSys) (sectionDir key : String) : CompilerArtifacts :=
  ⟨some (cachedObjectName sectionDir key),
   getCachedCompilerConsoleOutput fs sectionDir key "output.txt",
   getCachedCompilerConsoleOutput fs sectionDir key "stderr.txt"⟩

/-! ### On-disk write traces

For the write-discipline claim we record the sequence of file-system
operations a write path performs. -/

/-- One observable file-system operation. -/
inductive FsOp where
  | makeDirs (d : String)
  | openWrite (p : String)
  | copyFile (src dst : String)
  | rename (src dst : String)
  | hardLink (src dst : String)
  | utime (p : String)
deriving DecidableEq

/-- Test for a rename operation. -/
def FsOp.isRename : FsOp → Bool
  | .rename _ _ => true
  | _ => false

/-- Operation trace of `ManifestSection.setManifest`: ensure the section
directory, then `open(manifestPath, 'w')` — a direct in-place write. -/
def setManifestOps (manifestSectionDir manifestHash : String) (_m : Manifest) : List FsOp :=
  [.makeDirs manifestSectionDir, .openWrite (manifestPath manifestSectionDir manifestHash)]

/-- Operation trace of `copyOrLink`.  `dstDirAbs` is
`os.path.dirname(os.path.abspath(dstFilePath))` (the process-relative
absolutisation is an input of the model); `hardlinkEnv` is whether
`CLCACHE_HARDLINK` is set, `linkSucceeds` the outcome of the link attempt. -/
def copyOrLinkOps (dstDirAbs : String) (hardlinkEnv linkSucceeds : Bool)
    (srcFilePath dstFilePath : String) : List FsOp :=
  .makeDirs dstDirAbs ::
  (if hardlinkEnv then
    if linkSucceeds then [.hardLink srcFilePath dstFilePath, .utime dstFilePath]
    else [.hardLink srcFilePath dstFilePath,
          .copyFile srcFilePath (dstFilePath ++ ".tmp"),
          .rename (dstFilePath ++ ".tmp") dstFilePath]
  else [.copyFile srcFilePath (dstFilePath ++ ".tmp"),
        .rename (dstFilePath ++ ".tmp") dstFilePath])

/-- Operation trace of `_setCachedCompilerConsoleOutput`: a direct write. -/
def setCachedConsoleOutputOps (sectionDir key fileName : String) : List FsOp :=
  [.openWrite (consoleOutputPath sectionDir key fileName)]

/-- Operation trace of `CompilerArtifactsSection.setEntry`. -/
def setEntryOps (sectionDir key : String) (hardlinkEnv linkSucceeds : Bool)
    (artifacts : CompilerArtifacts) : List FsOp :=
  .makeDirs (cacheEntryDir sectionDir key) ::
  ((match artifacts.objectFilePath with
    | some src => copyOrLinkOps (cacheEntryDir sectionDir key) hardlinkEnv linkSucceeds src
        (cachedObjectName sectionDir key)
    | none => []) ++
   setCachedConsoleOutputOps sectionDir key "output.txt" ++
   (if artifacts.stderr ≠ "" then setCachedConsoleOutputOps sectionDir key "stderr.txt" else []))

/-! ### Eviction (`clean`) -/

/-- Stat data of one cached file (`st_atime`, `st_size`). -/
structure CacheFile where
  atime : ℚ
  size : ℚ
deriving DecidableEq

/-- Insert into a list sorted by descending atime. -/
def insertDescAtime (x : CacheFile) : List CacheFile → List CacheFile
  | [] => [x]
  | y :: ys => if y.atime < x.atime then x :: y :: ys else y :: insertDescAtime x ys

/-- Python `sort(key=atime, reverse=True)`. -/
def sortDescAtime (l : List CacheFile) : List CacheFile := l.foldr insertDescAtime []

/-- Insert into a list sorted by ascending atime. -/
def insertAscAtime (x : CacheFile) : List CacheFile → List CacheFile
  | [] => [x]
  | y :: ys => if x.atime ≤ y.atime then x :: y :: ys else y :: insertAscAtime x ys

/-- Python `sort(key=atime)`. -/
def sortAscAtime (l : List CacheFile) : List CacheFile := l.foldr insertAscAtime []

/-- `ManifestRepository.clean`: walk the manifest files newest-atime first,
keep each file whose size still fits the byte budget, delete the others;
return the kept files and the retained byte total. -/
def manifestRepositoryClean (files : List CacheFile) (maxManifestsSize : ℚ) :
    List CacheFile × ℚ :=
  (sortDescAtime files).foldl
    (fun acc f =>
      if acc.2 + f.size ≤ maxManifestsSize then (acc.1 ++ [f], acc.2 + f.size) else acc)
    ([], 0)

/-- The removal loop of `CompilerArtifactsRepository.clean`: delete entries
oldest-atime first until the running size drops below the budget; returns the
surviving entries and the final size. -/
def artifactsCleanLoop : List CacheFile → ℚ → ℚ → List CacheFile × ℚ
  | [], current, _ => ([], current)
  | f :: rest, current, budget =>
      if current - f.size < budget then (rest, current - f.size)
      else artifactsCleanLoop rest (current - f.size) budget

/-- `CompilerArtifactsRepository.clean`: sort by ascending atime, recompute
the real current size, run the removal loop; returns
`(retained count, retained bytes, retained entries)`. -/
def compilerArtifactsRepositoryClean (objs : List CacheFile) (maxCompilerArtifactsSize : ℚ) :
    Nat × ℚ × List CacheFile :=
  let sorted := sortAscAtime objs
  let r := artifactsCleanLoop sorted ((sorted.map CacheFile.size).sum) maxCompilerArtifactsSize
  (r.1.length, r.2, r.1)

/-- Cache-wide state relevant to `Cache.clean`: the stats counters plus the
stat data of every manifest file and every cached object. -/
structure CacheState where
  statsSize : ℚ
  statsEntries : Int
  manifestFiles : List CacheFile
  objectFiles : List CacheFile
deriving DecidableEq

/-- `Cache.clean`: return unchanged when the recorded size is below the
target; otherwise clean manifests to 9% and objects to 81% of the target and
fix up the recorded size and entry count. -/
def cacheClean (st : CacheState) (maximumSize : ℚ) : CacheState :=
  if st.statsSize < maximumSize then st
  else
    let effectiveMaximumSizeOverall := maximumSize * (9/10 : ℚ)
    let effectiveMaximumSizeManifests := effectiveMaximumSizeOverall * (1/10 : ℚ)
    let effectiveMaximumSizeObjects := effectiveMaximumSizeOverall - effectiveMaximumSizeManifests
    let man := manifestRepositoryClean st.manifestFiles effectiveMaximumSizeManifests
    let obj := compilerArtifactsRepositoryClean st.objectFiles effectiveMaximumSizeObjects
    ⟨obj.2.1 + man.2, (obj.1 : Int), man.1, obj.2.2⟩

/-! ### Command-line analyzer -/

/-- Python exceptions raised while analysing a command line.  The first seven
are the `AnalysisError` subclasses; `indexError` and `assertionError` model
the plain Python exceptions the parser can raise. -/
inductive ClErr where
  | invalidArgument
  | noSourceFile
  | multipleSourceFilesComplex
  | calledForLink
  | calledWithPch
  | externalDebugInfo
  | calledForPreprocessing
  | indexError
  | assertionError
deriving DecidableEq

/-- The four argument shapes of `CommandLineAnalyzer` (`ArgumentT1` …). -/
inductive ArgKind where
  | t1
  | t2
  | t3
  | t4
deriving DecidableEq

/-- The `argumentsWithParameter` table, sorted by name length descending as
`_getParameterizedArgumentType` sorts it.  Python iterates a set, so the
order within one length class is arbitrary; two distinct names of equal
length can never both match one token, hence any fixed order is faithful. -/
def argumentsWithParameterSorted : List (String × ArgKind) :=
  [("doc", .t2),
   ("Ob", .t1), ("Yl", .t1), ("Zm", .t1),
   ("FA", .t2), ("FR", .t2), ("Fr", .t2), ("Gs", .t2), ("MP", .t2), ("Yc", .t2),
   ("Yu", .t2), ("Zp", .t2), ("Fa", .t2), ("Fd", .t2), ("Fe", .t2), ("Fi", .t2),
   ("Fm", .t2), ("Fo", .t2), ("Fp", .t2), ("Wv", .t2),
   ("AI", .t3), ("Tc", .t3), ("Tp", .t3), ("FI", .t3), ("FU", .t3),
   ("w1", .t3), ("w2", .t3), ("w3", .t3), ("w4", .t3), ("wd", .t3),
   ("we", .t3), ("wo", .t3),
   ("D", .t3), ("U", .t3), ("I", .t3), ("F", .t3), ("V", .t3)]

/-- `CommandLineAnalyzer._getParameterizedArgumentType`: the first (longest)
table name occurring at index 1 of the token. -/
def getParameterizedArgumentType (cmdLineArgument : String) : Option (String × ArgKind) :=
  argumentsWithParameterSorted.find? (fun a => pyStartsWithAt1 cmdLineArgument a.1)

/-- The `arguments` dictionary of the parser: flag name → list of values, in
insertion order (`defaultdict(list)`). -/
abbrev ArgMap := List (String × List String)

/-- Append a value under a key (`arguments[name].append(value)`). -/
def addArg : ArgMap → String → String → ArgMap
  | [], k, v => [(k, [v])]
  | (k', vs) :: rest, k, v =>
      if k' = k then (k', vs ++ [v]) :: rest else (k', vs) :: addArg rest k v

/-- Dictionary lookup (`options[k]`, `none` when absent). -/
def lookupArg : ArgMap → String → Option (List String)
  | [], _ => none
  | (k', vs) :: rest, k => if k' = k then some vs else lookupArg rest k

/-- Python `k in options`. -/
def hasArg (m : ArgMap) (k : String) : Bool := (lookupArg m k).isSome

/-- The scanning loop of `CommandLineAnalyzer.parseArgumentsAndInputFiles`. -/
def parseLoop : List String → ArgMap → List String → Except ClErr (ArgMap × List String)
  | [], arguments, inputFiles => .ok (arguments, inputFiles)
  | tok :: rest, arguments, inputFiles =>
    if pyStartsWith tok "/" || pyStartsWith tok "-" then
      match getParameterizedArgumentType tok with
      | some (name, kind) =>
        match kind with
        | .t1 =>
          let value := pyDrop tok (name.data.length + 1)
          if value = "" then .error .invalidArgument
          else parseLoop rest (addArg arguments name value) inputFiles
        | .t2 =>
          parseLoop rest (addArg arguments name (pyDrop tok (name.data.length + 1))) inputFiles
        | .t3 =>
          let value := pyDrop tok (name.data.length + 1)
          if value = "" then
            match rest with
            | [] => .error .indexError
            | nxt :: rest₂ => parseLoop rest₂ (addArg arguments name nxt) inputFiles
          else parseLoop rest (addArg arguments name value) inputFiles
        | .t4 =>
          match rest with
          | [] => .error .indexError
          | nxt :: rest₂ => parseLoop rest₂ (addArg arguments name nxt) inputFiles
      | none => parseLoop rest (addArg arguments (pyDrop tok 1) "") inputFiles
    else if tok = "" then .error .indexError
    else if pyStartsWith tok "@" then .error .assertionError
    else parseLoop rest arguments (inputFiles ++ [tok])

/-- `CommandLineAnalyzer.parseArgumentsAndInputFiles`. -/
def parseArgumentsAndInputFiles (cmdline : List String) : Except ClErr (ArgMap × List String) :=
  parseLoop cmdline [] []

/-- Characters after the last path separator (for `ntpath.basename`). -/
def afterLastSep (cs : List Char) : List Char :=
  cs.foldl (fun acc c => if c = '\\' || c = '/' then [] else acc ++ [c]) []

/-- Index of the last `'.'` in a character list, if any. -/
def lastDotIdx (cs : List Char) : Option Nat :=
  ((List.range cs.length).filter (fun i => cs.getD i ' ' = '.')).getLast?

/-- `ntpath.splitext` stem on a separator-free name: cut at the last dot
unless every character before it is a dot. -/
def splitextRoot (cs : List Char) : List Char :=
  match lastDotIdx cs with
  | none => cs
  | some i => if (cs.take i).any (fun c => c ≠ '.') then cs.take i else cs

/-- `basenameWithoutExtension` (drive-letter prefixes are skipped as
`ntpath.splitdrive` does; UNC prefixes are outside the model). -/
def basenameWithoutExtension (path : String) : String :=
  let cs := path.data
  let afterDrive := if cs.length ≥ 2 ∧ cs.get? 1 = some ':' then cs.drop 2 else cs
  String.mk (splitextRoot (afterLastSep afterDrive))

/-- The object-file derivation of `CommandLineAnalyzer.analyze` (the code
after the checks).  `normpath` stands for `os.path.normpath` and `isDir` for
`os.path.isdir`; both depend on the process environment and are inputs of
the model. -/
def objectFileFor (normpath : String → String) (isDir : String → Bool)
    (options : ArgMap) (inputFiles : List String) : Option String :=
  if inputFiles.length = 1 then
    match lookupArg options "Fo" with
    | some (fo :: _) =>
      if fo ≠ "" then
        let objectFile₀ := normpath fo
        some (if isDir objectFile₀
              then joinPath objectFile₀ (basenameWithoutExtension (inputFiles.headD "") ++ ".obj")
              else objectFile₀)
      else some (basenameWithoutExtension (inputFiles.headD "") ++ ".obj")
    | _ => some (basenameWithoutExtension (inputFiles.headD "") ++ ".obj")
  else none

/-- The check chain of `CommandLineAnalyzer.analyze`, after `inputFiles` has
been extended with the `/Tp`/`/Tc` values and `compl` computed. -/
def analyzeChecked (normpath : String → String) (isDir : String → Bool)
    (options : ArgMap) (inputFiles : List String) (complexFlag : Bool) :
    Except ClErr (List String × Option String) :=
  if inputFiles.length = 0 then .error .noSourceFile
  else if hasArg options "E" || hasArg options "EP" || hasArg options "P" then
    .error .calledForPreprocessing
  else if hasArg options "Zi" then .error .externalDebugInfo
  else if hasArg options "Yc" || hasArg options "Yu" then .error .calledWithPch
  else if hasArg options "link" || !hasArg options "c" then .error .calledForLink
  else if decide (1 < inputFiles.length) && complexFlag then .error .multipleSourceFilesComplex
  else .ok (inputFiles, objectFileFor normpath isDir options inputFiles)

/-- The part of `CommandLineAnalyzer.analyze` after argument parsing:
extend the inputs with the `/Tp` and `/Tc` values, then run the checks. -/
def analyzeParsed (normpath : String → String) (isDir : String → Bool)
    (options : ArgMap) (inputFiles₀ : List String) :
    Except ClErr (List String × Option String) :=
  let p₁ := match lookupArg options "Tp" with
    | some vs => (inputFiles₀ ++ vs, true)
    | none => (inputFiles₀, false)
  let p₂ := match lookupArg options "Tc" with
    | some vs => (p₁.1 ++ vs, true)
    | none => p₁
  analyzeChecked normpath isDir options p₂.1 p₂.2

/-- `CommandLineAnalyzer.analyze`. -/
def analyze (normpath : String → String) (isDir : String → Bool) (cmdline : List String) :
    Except ClErr (List String × Option String) :=
  (parseArgumentsAndInputFiles cmdline).bind (fun r => analyzeParsed normpath isDir r.1 r.2)

/-- The spec's ordered uncacheable-shape decision list (§4.C steps 1–6),
stated from the spec's words, for comparison with `analyze`:
no-inputs, preprocess flags, `/Zi`, `/Yc`-`/Yu`, link-or-missing-`/c`,
multiple-inputs-with-`/Tc`-or-`/Tp`. -/
def specFirstAnalysisError (options : ArgMap) (inputFiles : List String) : Option ClErr :=
  if inputFiles.length = 0 then some .noSourceFile
  else if hasArg options "E" || hasArg options "EP" || hasArg options "P" then
    some .calledForPreprocessing
  else if hasArg options "Zi" then some .externalDebugInfo
  else if hasArg options "Yc" || hasArg options "Yu" then some .calledWithPch
  else if hasArg options "link" || !hasArg options "c" then some .calledForLink
  else if decide (1 < inputFiles.length) && (hasArg options "Tp" || hasArg options "Tc") then
    some .multipleSourceFilesComplex
  else none

/-! ### No-direct command-line normalization -/

/-- The tuple `argsToStrip` of `_normalizedCommandLine`. -/
def argsToStrip : List String :=
  ["AI", "C", "E", "P", "FI", "u", "X", "FU", "D", "EP", "Fx", "U", "I", "Fo", "MP"]

/-- The removal condition of `_normalizedCommandLine`: the first character
is a slash or a dash, and `arg[1:].startswith(argsToStrip)`. -/
def stripConditionHolds (arg : String) : Bool :=
  (pyStartsWith arg "/" || pyStartsWith arg "-")
    && argsToStrip.any (fun n => pyStartsWithAt1 arg n)

/-- `CompilerArtifactsRepository._normalizedCommandLine`; `none` models the
`IndexError` Python raises on an empty argument. -/
def normalizedCommandLine (cmdline : List String) : Option (List String) :=
  if cmdline.any (fun a => a = "") then none
  else some (cmdline.filter (fun arg => !stripConditionHolds arg))

/-! ### Direct-mode orchestration (`processDirect`)

`invokeRealCompiler` and the `/showIncludes` trace parser (`parseIncludesSet`)
are external collaborators of the orchestrator (spec §1, §4.K); they enter the
model as oracle functions.  `getManifestHash` depends on `os.stat` of the
compiler binary and the process environment, so the manifest hash is an input.
The manifest store maps manifest hashes to parsed manifests (the JSON layer
round-trips, proved separately). -/

/-- World state read and written by one direct-mode request. -/
structure DirectWorld where
  fs : FileSys
  manifests : ManifestStore
  artifacts : String → Option (String × String)
  stats : StatsDict
  objectFileProduced : Bool
  objectFileSize : Int
  maximumCacheSize : Int

/-- Python exceptions escaping `processDirect`. -/
inductive DirectErr where
  | logicException
  | indexError
  | fileNotFound
deriving DecidableEq

/-- Miss sub-classes of the statistics module. -/
inductive MissReason where
  | headerChanged
  | sourceChanged
  | evicted
  | plain
deriving DecidableEq

/-- Python `self._stats[k] += 1` (`Statistics.__enter__` initialises every
counter, so reading an absent key as 0 is exact). -/
def incStat (d : StatsDict) (k : String) : StatsDict :=
  dictSet d k ((dictGet? d k).getD 0 + 1)

/-- The `register…Miss` family: each sub-class calls `registerCacheMiss`
first, then bumps its own counter (`plain` is `registerCacheMiss` itself). -/
def registerMissReason : MissReason → StatsDict → StatsDict
  | .plain, d => incStat d CACHE_MISSES
  | .evicted, d => incStat (incStat d CACHE_MISSES) EVICTED_MISSES
  | .headerChanged, d => incStat (incStat d CACHE_MISSES) HEADER_CHANGED_MISSES
  | .sourceChanged, d => incStat (incStat d CACHE_MISSES) SOURCE_CHANGED_MISSES

/-- `Statistics.registerCacheHit`. -/
def registerCacheHit (d : StatsDict) : StatsDict := incStat d CACHE_HITS

/-- `Statistics.registerCacheEntry(size)`. -/
def registerCacheEntry (d : StatsDict) (size : Int) : StatsDict :=
  let d₁ := incStat d CACHE_ENTRIES
  dictSet d₁ CACHE_SIZE ((dictGet? d₁ CACHE_SIZE).getD 0 + size)

/-- Result of a direct-mode request: exit code, replayed console output and
the final world. -/
structure DirectResult where
  exitCode : Int
  stdout : String
  stderr : String
  cleanupRequired : Bool
  world : DirectWorld

/-- `addObjectToCache`: store the artifact, account for its size, report
whether the cache has grown past the configured maximum. -/
def addObjectToCache (w : DirectWorld) (cachekey : String) (out err : String) :
    Bool × DirectWorld :=
  let artifacts' := fun k => if k = cachekey then some (out, err) else w.artifacts k
  let stats' := registerCacheEntry w.stats w.objectFileSize
  let cleanupRequired := decide (w.maximumCacheSize ≤ (dictGet? stats' CACHE_SIZE).getD 0)
  (cleanupRequired, { w with artifacts := artifacts', stats := stats' })

/-- `ensureArtifactsExist`: under the section lock, when the key has no
entry register the miss reason and — on a successful compile that produced
the object file — insert the artifact and run the extra callable. -/
def ensureArtifactsExist (w : DirectWorld) (cachekey : String) (reason : MissReason)
    (returnCode : Int) (compilerOutput compilerStderr : String)
    (extraCallable : Option (DirectWorld → DirectWorld)) : DirectResult :=
  if (w.artifacts cachekey).isSome then
    ⟨returnCode, compilerOutput, compilerStderr, false, w⟩
  else
    let w₁ := { w with stats := registerMissReason reason w.stats }
    if returnCode = 0 ∧ w₁.objectFileProduced then
      let r := addObjectToCache w₁ cachekey compilerOutput compilerStderr
      let w₃ := match extraCallable with
        | some f => f r.2
        | none => r.2
      ⟨returnCode, compilerOutput, compilerStderr, r.1, w₃⟩
    else ⟨returnCode, compilerOutput, compilerStderr, false, w₁⟩

/-- Outcome of the manifest-entry scan of `processDirect`. -/
inductive ScanOutcome where
  | hit (cachekey : String)
  | fallthrough (lastMatchedKey : Option String)

/-- The entry loop of `processDirect`: walk the entries in original order;
on an includes-content match touch the matched position to MRU, persist the
manifest, and replay when the artifact is live, otherwise remember the
matched key and keep scanning.  A missing include skips the entry.  (A touch
at position `idx` permutes only positions `≤ idx` of the live list, so
iterating the original list with a running index matches Python's iteration
over the mutating list.) -/
def scanEntries (md5 : String → String) (baseDir : Option String) (manifestHash : String) :
    List ManifestEntry → Nat → Manifest → DirectWorld → Option String →
    Except DirectErr (DirectWorld × ScanOutcome)
  | [], _, _, w, lastKey => .ok (w, .fallthrough lastKey)
  | entry :: rest, idx, current, w, lastKey => do
      let expanded ← (exceptMapM (expandBasedirPlaceholder baseDir) entry.includeFiles).mapError
        (fun _ => DirectErr.logicException)
      match getIncludesContentHashForFiles md5 w.fs expanded with
      | none =>
          scanEntries md5 baseDir manifestHash rest (idx + 1) current w lastKey
      | some includesContentHash =>
          if entry.includesContentHash = includesContentHash then
            let cachekey := entry.objectHash
            match current.touchEntry idx with
            | none => .error .indexError
            | some touched =>
                let w₁ := { w with
                  manifests := fun h => if h = manifestHash then some touched else w.manifests h }
                if (w₁.artifacts cachekey).isSome then
                  .ok (w₁, .hit cachekey)
                else
                  scanEntries md5 baseDir manifestHash rest (idx + 1) touched w₁ (some cachekey)
          else
            scanEntries md5 baseDir manifestHash rest (idx + 1) current w lastKey

/-- The tail of `processDirect` after the scan (compile, then store).  With a
remembered key (`artifactSection is not None`) the command line is left
untouched, no include parsing happens, and the remembered key is reused;
otherwise `/showIncludes` is injected when absent, the include set is parsed
from the captured output, and a new manifest entry derives the key. -/
def directMissPath (md5 : String → String) (baseDir : Option String)
    (invokeCompiler : List String → Int × String × String)
    (parseIncludesSetFn : String → Bool → List String × String)
    (manifestHash : String) (cmdLine : List String) (w : DirectWorld)
    (unusableManifestMissReason : MissReason) (lastKey : Option String) :
    Except DirectErr DirectResult :=
  match lastKey with
  | some cachekey =>
      let r := invokeCompiler cmdLine
      .ok (ensureArtifactsExist w cachekey unusableManifestMissReason r.1 r.2.1 r.2.2 none)
  | none =>
      let injected := !(cmdLine.contains "/showIncludes")
      let cmdLine' := if injected then "/showIncludes" :: cmdLine else cmdLine
      let r := invokeCompiler cmdLine'
      let parsed := parseIncludesSetFn r.2.1 injected
      match createManifestEntry md5 w.fs baseDir manifestHash parsed.1 with
      | none => .error .fileNotFound
      | some entry =>
          let cachekey := entry.objectHash
          let addManifest : DirectWorld → DirectWorld := fun w' =>
            let newManifest := ((w'.manifests manifestHash).getD ⟨[]⟩).addEntry entry
            { w' with manifests :=
                fun h => if h = manifestHash then some newManifest else w'.manifests h }
          .ok (ensureArtifactsExist w cachekey unusableManifestMissReason r.1 parsed.2 r.2.2
            (some addManifest))

/-- `processDirect`: look the manifest up; scan its entries (hit ⇒ replay
with a `CacheHit`); otherwise fall through with `registerHeaderChangedMiss`
when the manifest existed and `registerSourceChangedMiss` when it did not. -/
def processDirect (md5 : String → String) (baseDir : Option String)
    (invokeCompiler : List String → Int × String × String)
    (parseIncludesSetFn : String → Bool → List String × String)
    (manifestHash : String) (cmdLine : List String) (w : DirectWorld) :
    Except DirectErr DirectResult := do
  match w.manifests manifestHash with
  | some manifest => do
      let s ← scanEntries md5 baseDir manifestHash manifest.entries 0 manifest w none
      match s.2 with
      | .hit cachekey =>
          let cached := (s.1.artifacts cachekey).getD ("", "")
          .ok ⟨0, cached.1, cached.2, false, { s.1 with stats := registerCacheHit s.1.stats }⟩
      | .fallthrough lastKey =>
          directMissPath md5 baseDir invokeCompiler parseIncludesSetFn manifestHash cmdLine s.1
            .headerChanged lastKey
  | none =>
      directMissPath md5 baseDir invokeCompiler parseIncludesSetFn manifestHash cmdLine w
        .sourceChanged none

/-! ## Helper lemmas for the claims -/

theorem manifestRepositoryClean_le (files : List CacheFile) (budget : ℚ) (hb : 0 ≤ budget) :
    (manifestRepositoryClean files budget).2 ≤ budget := by
  unfold manifestRepositoryClean
  generalize sortDescAtime files = l
  suffices h : ∀ (l : List CacheFile) (acc : List CacheFile × ℚ), acc.2 ≤ budget →
      (l.foldl (fun acc f =>
        if acc.2 + f.size ≤ budget then (acc.1 ++ [f], acc.2 + f.size) else acc) acc).2 ≤ budget by
    exact h l ([], 0) hb
  intro l
  induction l with
  | nil => intro acc h; exact h
  | cons f rest ih =>
    intro acc h
    simp only [List.foldl_cons]
    by_cases hc : acc.2 + f.size ≤ budget
    · rw [if_pos hc]; exact ih _ hc
    · rw [if_neg hc]; exact ih _ h

theorem artifactsCleanLoop_lt_or_zero (l : List CacheFile) (budget : ℚ) :
    (artifactsCleanLoop l ((l.map CacheFile.size).sum) budget).2 < budget ∨
    (artifactsCleanLoop l ((l.map CacheFile.size).sum) budget).2 = 0 := by
  induction l with
  | nil => right; simp [artifactsCleanLoop]
  | cons f rest ih =>
    have hsum : ((f :: rest).map CacheFile.size).sum - f.size = ((rest.map CacheFile.size)).sum := by
      simp [List.map_cons]
    simp only [artifactsCleanLoop]
    by_cases hc : ((f :: rest).map CacheFile.size).sum - f.size < budget
    · rw [if_pos hc]; left; exact hc
    · rw [if_neg hc, hsum]; exact ih

theorem compilerArtifactsRepositoryClean_lt_or_zero (objs : List CacheFile) (budget : ℚ) :
    (compilerArtifactsRepositoryClean objs budget).2.1 < budget ∨
    (compilerArtifactsRepositoryClean objs budget).2.1 = 0 := by
  unfold compilerArtifactsRepositoryClean
  exact artifactsCleanLoop_lt_or_zero (sortAscAtime objs) budget

theorem console_output_paths_ne (sectionDir key : String) {f₁ f₂ : String}
    (r₁ : (pyStartsWith f₁ "\\" || pyStartsWith f₁ "/") = false)
    (r₂ : (pyStartsWith f₂ "\\" || pyStartsWith f₂ "/") = false) (hne : f₁ ≠ f₂) :
    consoleOutputPath sectionDir key f₁ ≠ consoleOutputPath sectionDir key f₂ := by
  intro h
  exact hne (joinPath_inj_of_rel (cacheEntryDir sectionDir key) r₁ r₂ h)

theorem object_path_ne_console (sectionDir key : String) {f : String}
    (r : (pyStartsWith f "\\" || pyStartsWith f "/") = false) (hne : "object" ≠ f) :
    cachedObjectName sectionDir key ≠ consoleOutputPath sectionDir key f := by
  intro h
  exact hne (joinPath_inj_of_rel (cacheEntryDir sectionDir key) (by decide) r h)

theorem mapM_str_roundtrip (l : List String) :
    exceptMapM (fun v => match v with
      | JVal.str s => Except.ok s
      | _ => (Except.error ReadErr.typeError : Except ReadErr String)) (l.map JVal.str)
      = Except.ok l := by
  induction l with
  | nil => rfl
  | cons x xs ih => simp [exceptMapM, ih]

theorem manifestEntryOfJson_roundtrip (e : ManifestEntry) :
    manifestEntryOfJson (manifestEntryJson e) = .ok e := by
  simp [manifestEntryOfJson, manifestEntryJson, jsonField, mapM_str_roundtrip]
  rfl

theorem mapM_entry_roundtrip (es : List ManifestEntry) :
    exceptMapM manifestEntryOfJson (es.map manifestEntryJson) = .ok es := by
  induction es with
  | nil => rfl
  | cons x xs ih => simp [exceptMapM, manifestEntryOfJson_roundtrip, ih]

theorem manifestOfJson_roundtrip (m : Manifest) :
    manifestOfJson (manifestJsonDoc m) = .ok m := by
  simp [manifestOfJson, manifestJsonDoc, jsonField, mapM_entry_roundtrip]

theorem analyzeChecked_of_spec_some (np : String → String) (isd : String → Bool)
    (options : ArgMap) (inputFiles : List String) (e : ClErr)
    (h : specFirstAnalysisError options inputFiles = some e) :
    analyzeChecked np isd options inputFiles (hasArg options "Tp" || hasArg options "Tc")
      = .error e := by
  unfold specFirstAnalysisError at h
  split_ifs at h with h₀ h₁ h₂ h₃ h₄ h₅ <;>
    simp_all [analyzeChecked]

theorem analyzeChecked_of_spec_none (np : String → String) (isd : String → Bool)
    (options : ArgMap) (inputFiles : List String)
    (h : specFirstAnalysisError options inputFiles = none) :
    analyzeChecked np isd options inputFiles (hasArg options "Tp" || hasArg options "Tc")
      = .ok (inputFiles, objectFileFor np isd options inputFiles) := by
  unfold specFirstAnalysisError at h
  split_ifs at h with h₀ h₁ h₂ h₃ h₄ h₅
  simp_all [analyzeChecked]

theorem analyzeParsed_eq_checked (np : String → String) (isd : String → Bool)
    (options : ArgMap) (files₀ : List String) :
    analyzeParsed np isd options files₀ =
      analyzeChecked np isd options
        (files₀ ++ (lookupArg options "Tp").getD [] ++ (lookupArg options "Tc").getD [])
        (hasArg options "Tp" || hasArg options "Tc") := by
  unfold analyzeParsed
  rcases hTp : lookupArg options "Tp" with _ | vs <;>
    rcases hTc : lookupArg options "Tc" with _ | ws <;>
    simp [hasArg, hTp, hTc]

/-! ## Claim C9 -/

/-- C9: resetting statistics zeroes exactly the RESETTABLE counters and
leaves every other statistics key unchanged: for every statistics state,
after `resetCounters` each call/hit/miss counter reads 0 while
`CacheEntries`, `CacheSize`, and any other non-resettable key keep their
previous values. -/
theorem resetCounters_zeroes_exactly_resettable (d : StatsDict) :
    (∀ k ∈ RESETTABLE_KEYS, dictGet? (resetCounters d) k = some 0) ∧
    dictGet? (resetCounters d) CACHE_ENTRIES = dictGet? d CACHE_ENTRIES ∧
    dictGet? (resetCounters d) CACHE_SIZE = dictGet? d CACHE_SIZE ∧
    (∀ k, k ∉ RESETTABLE_KEYS → dictGet? (resetCounters d) k = dictGet? d k) := by
  refine ⟨fun k hk => foldl_dictSet_zero_mem _ k d (Or.inl hk), ?_, ?_,
    fun k hk => foldl_dictSet_zero_not_mem _ k hk d⟩
  · exact foldl_dictSet_zero_not_mem _ _ (by decide) d
  · exact foldl_dictSet_zero_not_mem _ _ (by decide) d

/-- C9 witness: a concrete statistics dictionary, evaluated. -/
theorem resetCounters_witness :
    (CACHE_HITS ∈ RESETTABLE_KEYS ∧
      dictGet? (resetCounters [(CACHE_SIZE, 5), (CACHE_HITS, 3)]) CACHE_HITS = some 0) ∧
    dictGet? (resetCounters [(CACHE_SIZE, 5), (CACHE_HITS, 3)]) CACHE_SIZE = some 5 :=
  ⟨⟨by decide,
    (resetCounters_zeroes_exactly_resettable [(CACHE_SIZE, 5), (CACHE_HITS, 3)]).1
      CACHE_HITS (by decide)⟩,
   ((resetCounters_zeroes_exactly_resettable [(CACHE_SIZE, 5), (CACHE_HITS, 3)]).2.2.1).trans
     (by decide)⟩

/-! ## Claim C2 -/

/-- Iterated `createOrUpdateManifest` insertions of one entry into one
manifest hash, starting from an empty store. -/
def iteratedManifestStore (e : ManifestEntry) (manifestHash : String) : Nat → ManifestStore
  | 0 => fun _ => none
  | n + 1 => (createOrUpdateManifest (iteratedManifestStore e manifestHash n) manifestHash e).2

/-- C2 (the code at the failing input): 101 successive insertions through
`createOrUpdateManifest` leave a manifest with 101 entries — no bound is
enforced and nothing is evicted (`Manifest.addEntry` only prepends), so the
claimed invariant `entries ≤ 100` fails. -/
theorem manifest_exceeds_claimed_bound :
    ((iteratedManifestStore ⟨[], "ich", "key"⟩ "mh" 101) "mh").map
        (fun m => m.entries.length) = some 101 ∧
    ∀ (m : Manifest) (e : ManifestEntry),
      (m.addEntry e).entries.length = m.entries.length + 1 :=
  ⟨rfl, fun _ _ => rfl⟩

/-! ## Claim C5 -/

/-- C5: the includes-content hash derived while creating a manifest entry is
invariant under reordering and duplication of the input header list: two
lists covering the same set of paths produce the same entry (in particular
the same `includesContentHash` hex digest and the same object key), because
the paths are sorted and deduplicated before hashing. -/
theorem createManifestEntry_invariant_under_reorder_dup
    (md5 : String → String) (fs : FileSys) (baseDir : Option String) (manifestHash : String)
    (L L' : List String) (h : ∀ p, p ∈ L ↔ p ∈ L') :
    createManifestEntry md5 fs baseDir manifestHash L
      = createManifestEntry md5 fs baseDir manifestHash L' := by
  unfold createManifestEntry
  rw [pySortedSet_eq_of_mem_iff h]

/-- C5 witness: a duplicated, reordered concrete header list. -/
theorem createManifestEntry_invariant_witness :
    (∀ p : String, p ∈ ["b.h", "a.h", "b.h"] ↔ p ∈ ["a.h", "b.h"]) ∧
    createManifestEntry (fun s => s) (fun _ => some "x") none "MH" ["b.h", "a.h", "b.h"]
      = createManifestEntry (fun s => s) (fun _ => some "x") none "MH" ["a.h", "b.h"] ∧
    createManifestEntry (fun s => s) (fun _ => some "x") none "MH" ["b.h", "a.h", "b.h"]
      = some ⟨["a.h", "b.h"], "x,x", "MHx,x"⟩ := by
  refine ⟨?_, ?_, rfl⟩
  · intro p
    simp [List.mem_cons]
    tauto
  · exact createManifestEntry_invariant_under_reorder_dup _ _ _ _ _ _
      (by intro p; simp [List.mem_cons]; tauto)

/-! ## Claim C8 -/

/-- C8: cached console output round-trips: after `setEntry(K, a)` on an
entry directory without a stale `stderr.txt` (guaranteed by the
`hasEntry` guard of `ensureArtifactsExist`), `getEntry(K)` returns an
artifact with stdout `a.stdout` and stderr `a.stderr`; `output.txt` is
always written (even for empty stdout), `stderr.txt` only when stderr is
non-empty, and a missing stderr file reads back as `""`. -/
theorem setEntry_getEntry_console_roundtrip (fs : FileSys) (sectionDir key : String)
    (a : CompilerArtifacts)
    (hstale : fs (consoleOutputPath sectionDir key "stderr.txt") = none) :
    (getEntry (setEntry fs sectionDir key a) sectionDir key).stdout = a.stdout ∧
    (getEntry (setEntry fs sectionDir key a) sectionDir key).stderr = a.stderr ∧
    (setEntry fs sectionDir key a) (consoleOutputPath sectionDir key "output.txt")
      = some a.stdout ∧
    (a.stderr = "" →
      (setEntry fs sectionDir key a) (consoleOutputPath sectionDir key "stderr.txt") = none) ∧
    (a.stderr ≠ "" →
      (setEntry fs sectionDir key a) (consoleOutputPath sectionDir key "stderr.txt")
        = some a.stderr) ∧
    (∀ fs' : FileSys, fs' (consoleOutputPath sectionDir key "stderr.txt") = none →
      (getEntry fs' sectionDir key).stderr = "") := by
  have hoe : consoleOutputPath sectionDir key "output.txt"
      ≠ consoleOutputPath sectionDir key "stderr.txt" :=
    console_output_paths_ne sectionDir key (by decide) (by decide) (by decide)
  have heo : consoleOutputPath sectionDir key "stderr.txt"
      ≠ consoleOutputPath sectionDir key "output.txt" := Ne.symm hoe
  have hout_obj : consoleOutputPath sectionDir key "output.txt"
      ≠ cachedObjectName sectionDir key :=
    Ne.symm (object_path_ne_console sectionDir key (by decide) (by decide))
  have herr_obj : consoleOutputPath sectionDir key "stderr.txt"
      ≠ cachedObjectName sectionDir key :=
    Ne.symm (object_path_ne_console sectionDir key (by decide) (by decide))
  obtain ⟨obj, sout, serr⟩ := a
  by_cases hse : serr = ""
  · subst hse
    cases obj <;>
      refine ⟨?_, ?_, ?_, ?_, ?_, ?_⟩ <;>
        simp_all [setEntry, getEntry, setCachedCompilerConsoleOutput,
          getCachedCompilerConsoleOutput, fsWrite, copyFileTo, hoe, heo, hout_obj, herr_obj]
  · cases obj <;>
      refine ⟨?_, ?_, ?_, ?_, ?_, ?_⟩ <;>
        simp_all [setEntry, getEntry, setCachedCompilerConsoleOutput,
          getCachedCompilerConsoleOutput, fsWrite, copyFileTo, hoe, heo, hout_obj, herr_obj]

/-- C8 witness: a concrete empty file system, section, key and an artifact
with empty stderr. -/
theorem setEntry_getEntry_witness :
    ((fun _ => none : FileSys) (consoleOutputPath "ab" "cdef" "stderr.txt") = none) ∧
    (getEntry (setEntry (fun _ => none) "ab" "cdef" ⟨none, "OUT", ""⟩) "ab" "cdef").stdout
      = "OUT" ∧
    (getEntry (setEntry (fun _ => none) "ab" "cdef" ⟨none, "OUT", ""⟩) "ab" "cdef").stderr
      = "" :=
  ⟨rfl,
   (setEntry_getEntry_console_roundtrip (fun _ => none) "ab" "cdef" ⟨none, "OUT", ""⟩ rfl).1,
   (setEntry_getEntry_console_roundtrip (fun _ => none) "ab" "cdef" ⟨none, "OUT", ""⟩ rfl).2.1⟩

/-! ## Claim C7 -/

/-- C7 counterexample: at a concrete section directory and manifest hash the
write trace of `setManifest` is a bare in-place open-and-write of the target
path — no temporary sibling, no rename — so the claimed global
temp-file-plus-rename discipline fails at this input. -/
theorem setManifest_writes_in_place :
    setManifestOps "m\\ab" "0123" ⟨[]⟩
      = [.makeDirs "m\\ab", .openWrite "m\\ab\\0123.json"] ∧
    (setManifestOps "m\\ab" "0123" ⟨[]⟩).any (fun op => op.isRename) = false := by
  constructor
  · decide
  · decide

/-- C7 (amended): the object-file install path is atomic — `copyOrLink`
without a usable hard link copies to the `.tmp` sibling and renames over the
target — but `setManifest` and the console-output writes open their target
path directly and write in place, with no temporary file and no rename. -/
theorem write_discipline_split :
    (∀ dstDirAbs src dst : String,
      copyOrLinkOps dstDirAbs false false src dst =
        [.makeDirs dstDirAbs, .copyFile src (dst ++ ".tmp"), .rename (dst ++ ".tmp") dst]) ∧
    (∀ (d h : String) (m : Manifest),
      setManifestOps d h m = [.makeDirs d, .openWrite (manifestPath d h)] ∧
      (setManifestOps d h m).any (fun op => op.isRename) = false) ∧
    (∀ sectionDir key fileName : String,
      (setCachedConsoleOutputOps sectionDir key fileName).any (fun op => op.isRename)
        = false) :=
  ⟨fun _ _ _ => rfl, fun _ _ _ => ⟨rfl, rfl⟩, fun _ _ _ => rfl⟩

/-! ## Claim C10 -/

/-- C10: no-direct normalization strips by string prefix on the flag name:
an argument is removed iff its first character is a slash or a dash and the
rest of the token starts with one of the listed names; consequently a flag
merely beginning with such a name — `/EHsc`, which begins with `E` — is also
removed, so two command lines differing only in such a flag normalize to the
same list. -/
theorem normalizedCommandLine_strips_by_flag_name (l₁ l₂ : List String) (f : String)
    (hno : "" ∉ l₁ ++ l₂) (hf : stripConditionHolds f = true) :
    normalizedCommandLine (l₁ ++ f :: l₂) = normalizedCommandLine (l₁ ++ l₂) ∧
    (∀ arg : String,
      stripConditionHolds arg = true ↔
        ((pyStartsWith arg "/" = true ∨ pyStartsWith arg "-" = true) ∧
          ∃ n ∈ argsToStrip, pyStartsWithAt1 arg n = true)) ∧
    stripConditionHolds "/EHsc" = true := by
  have hf' : f ≠ "" := by
    intro h
    rw [h] at hf
    exact absurd hf (by decide)
  have hA : (l₁ ++ f :: l₂).any (fun a => a = "") = false := by
    rw [Bool.eq_false_iff]
    intro hcon
    rw [List.any_eq_true] at hcon
    obtain ⟨x, hx, hxe⟩ := hcon
    rw [decide_eq_true_eq] at hxe
    subst hxe
    rcases List.mem_append.mp hx with hmem | hmem
    · exact hno (List.mem_append.mpr (Or.inl hmem))
    · rcases List.mem_cons.mp hmem with hmem | hmem
      · exact hf' hmem.symm
      · exact hno (List.mem_append.mpr (Or.inr hmem))
  have hB : (l₁ ++ l₂).any (fun a => a = "") = false := by
    rw [Bool.eq_false_iff]
    intro hcon
    rw [List.any_eq_true] at hcon
    obtain ⟨x, hx, hxe⟩ := hcon
    rw [decide_eq_true_eq] at hxe
    exact hno (hxe ▸ hx)
  refine ⟨?_, ?_, by decide⟩
  · simp only [normalizedCommandLine, hA, hB]
    simp [List.filter_append, List.filter_cons, hf]
  · intro arg
    simp [stripConditionHolds, List.any_eq_true]

/-- C10 witness: `/c /EHsc main.cpp` and `/c main.cpp` normalize to the same
list. -/
theorem normalizedCommandLine_witness :
    ("" ∉ ["/c"] ++ ["main.cpp"]) ∧ stripConditionHolds "/EHsc" = true ∧
    normalizedCommandLine (["/c"] ++ "/EHsc" :: ["main.cpp"])
      = normalizedCommandLine (["/c"] ++ ["main.cpp"]) ∧
    normalizedCommandLine ["/c", "/EHsc", "main.cpp"] = some ["/c", "main.cpp"] :=
  ⟨by decide, by decide,
   (normalizedCommandLine_strips_by_flag_name ["/c"] ["main.cpp"] "/EHsc"
     (by decide) (by decide)).1,
   by decide⟩

/-! ## Claim C3 -/

/-- C3 counterexample: a stored manifest file that is not valid JSON makes
`getManifest` raise `JSONDecodeError` — only `IOError` is caught — instead
of returning absent; and the document `setManifest` persists has exactly the
top-level key `entries`, so no format-version integer is carried in the
manifest JSON. -/
theorem getManifest_corrupt_raises :
    getManifest (fun p => if p = manifestPath "mm" "ab" then some .notJson else none) "mm" "ab"
      = .error .jsonDecodeError ∧
    jsonTopKeys (manifestJsonDoc ⟨[⟨["a.h"], "ich", "key"⟩]⟩) = ["entries"] := by
  constructor
  · rfl
  · rfl

/-- C3 (amended): `getManifest` yields absent only for a missing file (or an
`IOError`); a corrupt stored file raises `JSONDecodeError`; the persisted
document carries no version integer — its only top-level key is `entries`,
the format version participating in the manifest hash instead so that a
version-mismatched manifest is never looked up — and a document written by
`setManifest` parses back to the stored manifest. -/
theorem getManifest_amended (store : ManifestFileStore) (d h : String) (m : Manifest) :
    (store (manifestPath d h) = none → getManifest store d h = .ok none) ∧
    (store (manifestPath d h) = some .notJson →
      getManifest store d h = .error .jsonDecodeError) ∧
    jsonTopKeys (manifestJsonDoc m) = ["entries"] ∧
    (store (manifestPath d h) = some (.jsonContent (manifestJsonDoc m)) →
      getManifest store d h = .ok (some m)) := by
  refine ⟨?_, ?_, rfl, ?_⟩ <;>
    intro hs <;>
    simp [getManifest, hs, manifestOfJson_roundtrip, Except.map]

/-- C3 witness: an absent file reads as `None`, and a written document reads
back as the stored manifest. -/
theorem getManifest_amended_witness :
    getManifest (fun _ => none) "mm" "ab" = .ok none ∧
    getManifest (fun _ => some (.jsonContent (manifestJsonDoc ⟨[]⟩))) "mm" "ab"
      = .ok (some ⟨[]⟩) :=
  ⟨(getManifest_amended (fun _ => none) "mm" "ab" ⟨[]⟩).1 rfl,
   (getManifest_amended (fun _ => some (.jsonContent (manifestJsonDoc ⟨[]⟩))) "mm" "ab"
     ⟨[]⟩).2.2.2 rfl⟩

/-! ## Claim C4 -/

/-- C4 counterexample: target 20, recorded size 19 — strictly between
0.9 × 20 = 18 and 20 — with two cached objects: `clean` returns immediately,
the byte total stays 19 > 18 and both objects remain, refuting the claimed
bound for starting sizes strictly between 0.9 × target and target. -/
theorem cacheClean_early_return_counterexample :
    cacheClean ⟨19, 2, [], [⟨1, 10⟩, ⟨2, 9⟩]⟩ 20 = ⟨19, 2, [], [⟨1, 10⟩, ⟨2, 9⟩]⟩ ∧
    (9/10 : ℚ) * 20 < (cacheClean ⟨19, 2, [], [⟨1, 10⟩, ⟨2, 9⟩]⟩ 20).statsSize ∧
    1 < (cacheClean ⟨19, 2, [], [⟨1, 10⟩, ⟨2, 9⟩]⟩ 20).objectFiles.length := by
  have h : cacheClean ⟨19, 2, [], [⟨1, 10⟩, ⟨2, 9⟩]⟩ 20 = ⟨19, 2, [], [⟨1, 10⟩, ⟨2, 9⟩]⟩ := by
    unfold cacheClean
    rw [if_pos (by norm_num)]
  refine ⟨h, ?_, ?_⟩ <;> rw [h] <;> norm_num

/-- C4 (amended): when the recorded size has reached the target,
`clean(target)` brings the recorded byte total down to at most
0.9 × target; when the recorded size is below the target — including
strictly between 0.9 × target and target — `clean` returns with the state
unchanged, so the bound need not hold there. -/
theorem cacheClean_bound (st : CacheState) (maximumSize : ℚ) (hM : 0 ≤ maximumSize) :
    (maximumSize ≤ st.statsSize →
      (cacheClean st maximumSize).statsSize ≤ (9/10 : ℚ) * maximumSize) ∧
    (st.statsSize < maximumSize → cacheClean st maximumSize = st) := by
  constructor
  · intro hge
    unfold cacheClean
    rw [if_neg (not_lt.mpr hge)]
    dsimp only
    have hman := manifestRepositoryClean_le st.manifestFiles
      (maximumSize * (9/10) * (1/10)) (by linarith)
    rcases compilerArtifactsRepositoryClean_lt_or_zero st.objectFiles
        (maximumSize * (9/10) - maximumSize * (9/10) * (1/10)) with hobj | hobj <;>
      linarith [hman]
  · intro hlt
    unfold cacheClean
    rw [if_pos hlt]

/-- C4 witness: a cache of recorded size 25 cleaned to target 20 lands at or
below 18 bytes. -/
theorem cacheClean_bound_witness :
    (0 ≤ (20 : ℚ)) ∧
    ((20 : ℚ) ≤ (⟨25, 2, [], [⟨1, 10⟩, ⟨2, 15⟩]⟩ : CacheState).statsSize) ∧
    (cacheClean ⟨25, 2, [], [⟨1, 10⟩, ⟨2, 15⟩]⟩ 20).statsSize ≤ (9/10 : ℚ) * 20 :=
  ⟨by norm_num, by norm_num,
   (cacheClean_bound ⟨25, 2, [], [⟨1, 10⟩, ⟨2, 15⟩]⟩ 20 (by norm_num)).1 (by norm_num)⟩

/-! ## Claim C6 -/

/-- C6: `analyze` applies the uncacheable-shape checks in the fixed order
no-inputs, preprocess flags, `/Zi`, `/Yc`-or-`/Yu`, link-or-missing-`/c`,
multiple-inputs-with-`/Tc`-or-`/Tp` (after appending the `/Tp` and `/Tc`
values to the input list), and raises the error of the first check in the
spec's decision list that fires; when none fires it succeeds with those
inputs and the derived object file. -/
theorem analyze_first_failing_check (np : String → String) (isd : String → Bool)
    (cmdline : List String) (options : ArgMap) (files₀ : List String)
    (hparse : parseArgumentsAndInputFiles cmdline = .ok (options, files₀)) :
    (∀ e, specFirstAnalysisError options
        (files₀ ++ (lookupArg options "Tp").getD [] ++ (lookupArg options "Tc").getD [])
          = some e →
      analyze np isd cmdline = .error e) ∧
    (specFirstAnalysisError options
        (files₀ ++ (lookupArg options "Tp").getD [] ++ (lookupArg options "Tc").getD [])
          = none →
      analyze np isd cmdline =
        .ok (files₀ ++ (lookupArg options "Tp").getD [] ++ (lookupArg options "Tc").getD [],
          objectFileFor np isd options
            (files₀ ++ (lookupArg options "Tp").getD []
              ++ (lookupArg options "Tc").getD []))) := by
  have hana : analyze np isd cmdline = analyzeParsed np isd options files₀ := by
    rw [analyze, hparse]
    rfl
  rw [hana, analyzeParsed_eq_checked]
  exact ⟨fun e he => analyzeChecked_of_spec_some np isd options _ e he,
         fun hn => analyzeChecked_of_spec_none np isd options _ hn⟩

/-- C6 witness: a command line containing `/E` and lacking `/c` raises
`CalledForPreprocessing`, not `CalledForLink`. -/
theorem analyze_first_failing_check_witness :
    parseArgumentsAndInputFiles ["/E", "main.cpp"] = .ok ([("E", [""])], ["main.cpp"]) ∧
    specFirstAnalysisError [("E", [""])] ["main.cpp"] = some .calledForPreprocessing ∧
    hasArg [("E", [""])] "c" = false ∧
    analyze (fun s => s) (fun _ => false) ["/E", "main.cpp"]
      = .error .calledForPreprocessing := by
  refine ⟨rfl, rfl, rfl, ?_⟩
  exact (analyze_first_failing_check (fun s => s) (fun _ => false) ["/E", "main.cpp"]
    [("E", [""])] ["main.cpp"] rfl).1 ClErr.calledForPreprocessing rfl

/-! ## Claim C1 -/

/-- The evicted-artifact scenario: one manifest whose single entry matches
the current includes-content hash while its artifact is absent from the
artifact store (it was evicted); the compile succeeds and produces the
object file. -/
def evictedWorld : DirectWorld where
  fs := fun p => if p = "a.h" then some "AH" else none
  manifests := fun h => if h = "MH" then some ⟨[⟨["a.h"], "AH", "KEY1"⟩]⟩ else none
  artifacts := fun _ => none
  stats := [(CACHE_HITS, 0), (CACHE_MISSES, 0), (EVICTED_MISSES, 0),
            (HEADER_CHANGED_MISSES, 0), (SOURCE_CHANGED_MISSES, 0),
            (CACHE_ENTRIES, 0), (CACHE_SIZE, 0)]
  objectFileProduced := true
  objectFileSize := 7
  maximumCacheSize := 1000000

/-- C1 (the code at the failing input): with a matching manifest entry whose
artifact was evicted, the request does fall through to recompile-and-store
reusing the already-derived key — the artifact reappears under the stored
key `KEY1` without re-deriving it — but the miss registered is
`HeaderChangedMiss`: `CacheMisses` and `HeaderChangedMisses` end at 1 while
`EvictedMisses` stays 0, because `processDirect` passes
`registerHeaderChangedMiss` as the reason whenever the manifest existed and
never calls `registerEvictedMiss`. -/
theorem processDirect_evicted_registers_header_changed :
    (processDirect (fun s => s) none (fun _ => (0, "OUT", "ERR")) (fun out _ => ([], out))
        "MH" ["/c", "x.cpp"] evictedWorld).map
      (fun r => (r.exitCode, r.world.artifacts "KEY1",
        dictGet? r.world.stats CACHE_MISSES,
        dictGet? r.world.stats HEADER_CHANGED_MISSES,
        dictGet? r.world.stats EVICTED_MISSES))
    = .ok (0, some ("OUT", "ERR"), some 1, some 1, some 0) := rfl
